import Mathlib

/-!
Verification of the multi-hypothesis captcha decoding engine of
`test_captcha_models.py` (class `CaptchaOcrTester`, mainly the method
`postprocess_output`).  The embedding conventions, used throughout:

* Python strings are embedded as `List Char`; score tensors as lists of
  rationals (`ℚ`), a row per position/time step.
* The source decides logits-vs-probabilities by the sign of the tensor's
  minimum and, for logits, applies a numerically stable softmax
  (`np.exp(x - max) / sum`).  Softmax is strictly increasing on each row, so
  every per-row argmax and top-2 computation in the source is unchanged by it;
  the embedding therefore takes argmaxes of the raw rows, and the spot where
  the source normalizes is recorded in the corresponding doc comment.
* Fallible code paths (raised exceptions: `UnboundLocalError`, `NameError`,
  `np.max` / `np.argmax` on empty input, `reshape` mismatches) are modelled
  with `Option`, `none` standing for a raised exception, which the caller
  `test_model_on_image` catches, yielding no decoded string.
-/

namespace Captcha

/-! ## Generic list utilities mirroring the numpy primitives used -/

/-- Running state of `np.argmax`: first index of the maximum so far.  Ties keep
the earliest index (numpy returns the first occurrence of the maximum). -/
def argmaxAux : List ℚ → Nat → Nat → ℚ → Nat
  | [], _, bi, _ => bi
  | x :: t, i, bi, bv =>
    if bv < x then argmaxAux t (i + 1) i x else argmaxAux t (i + 1) bi bv

/-- First index of the maximum of a row (`np.argmax`).  `np.argmax` raises on
an empty row; the embedding is only applied to nonempty rows and returns 0
there. -/
def argmaxIdx : List ℚ → Nat
  | [] => 0
  | x :: t => argmaxAux t 1 0 x

/-- Index of the largest entry at a position different from `skip`; together
with `argmaxIdx` this embeds `np.argsort(row)[-2:][::-1]` (top-1 and top-2
index).  For rows with pairwise distinct values this is exactly the argsort
result; `np.argsort`'s order on tied values is implementation-defined, and
every concrete row evaluated below has pairwise distinct values. -/
def argmaxExceptAux : List ℚ → Nat → Nat → Option (Nat × ℚ) → Nat
  | [], _, _, some (bi, _) => bi
  | [], _, _, none => 0
  | x :: t, i, skip, acc =>
    if i = skip then argmaxExceptAux t (i + 1) skip acc
    else
      match acc with
      | none => argmaxExceptAux t (i + 1) skip (some (i, x))
      | some (bi, bv) =>
        if bv < x then argmaxExceptAux t (i + 1) skip (some (i, x))
        else argmaxExceptAux t (i + 1) skip (some (bi, bv))

/-- Second argmax of a row: the argmax over all positions other than `skip`. -/
def argmaxExcept (l : List ℚ) (skip : Nat) : Nat := argmaxExceptAux l 0 skip none

/-- Reshape a flat row into `seqLen` consecutive segments of `width` entries:
`flat_output.reshape(seq_len, num_classes)`, and equally the v1-v8 slicing
loop `flat_output[cls_dim * idx : cls_dim * (idx + 1)]` (lines 583-590). -/
def reshapeRows : Nat → Nat → List ℚ → List (List ℚ)
  | 0, _, _ => []
  | s + 1, width, l => l.take width :: reshapeRows s width (l.drop width)

/-! ## Symbol tables -/

/-- CHAR_SETS table (lines 36-41): order is lowercase, uppercase, digits, `$`. -/
def CHAR_SETS : List (String × List Char) :=
  [("63", "abcdefghijklmnopqrstuvwxyzABCDEFGHIJKLMNOPQRSTUVWXYZ0123456789$".toList),
   ("37_uppercase", "ABCDEFGHIJKLMNOPQRSTUVWXYZ0123456789$".toList),
   ("37_lowercase", "abcdefghijklmnopqrstuvwxyz0123456789$".toList),
   ("11", "0123456789$".toList)]

/-- Lookup in CHAR_SETS by key (`self.CHAR_SETS[char_set_key]`). -/
def charSetOf (key : String) : List Char :=
  ((CHAR_SETS.find? fun p => p.1 == key).map Prod.snd).getD []

/-- MODEL_CONFIGS table (lines 45-54): model version to
(sequence_length, char_set_key). -/
def MODEL_CONFIGS : List (String × Nat × String) :=
  [("v1", 6, "63"), ("v2", 6, "11"), ("v3", 5, "63"), ("v4", 6, "37_lowercase"),
   ("v5", 5, "37_uppercase"), ("v6", 4, "63"), ("v7", 6, "11"), ("v8", 5, "37_uppercase")]

/-! ## Tokenizer-Sequence decoding (lines 280-379) -/

/-- Charset used by the captcha.onnx tokenizer branch (line 309). -/
def charsetCaptchaOnnx : List Char :=
  "0123456789abcdefghijklmnopqrstuvwxyzABCDEFGHIJKLMNOPQRSTUVWXYZ".toList

/-- Charset chosen for the non-captcha.onnx tokenizer branch (lines 324-336):
with 95 classes, `charset_size = 91 >= 63 = len(charset_digits_first)`, so
`charset = charset_digits_first`. -/
def charsetDigitsFirst : List Char :=
  "0123456789abcdefghijklmnopqrstuvwxyzABCDEFGHIJKLMNOPQRSTUVWXYZ$".toList

/-- Per-index emission of the captcha.onnx tokenizer loop body (lines 347-357):
skip [UNK]=63, [B]=64, [P]=65; map 1..62 through the charset; skip anything
beyond the [P] token.  The `getD` default is unreachable: the guard gives
`idx - 1 < 62`, the charset length. -/
def captchaEmit (idx : Nat) : Option Char :=
  if idx = 63 ∨ idx = 64 ∨ idx = 65 then none
  else if 1 ≤ idx ∧ idx ≤ 62 then some (charsetCaptchaOnnx.getD (idx - 1) ' ')
  else none

/-- Per-index emission of the non-captcha.onnx tokenizer loop body
(lines 358-370): skip [UNK]=92, [B]=93, [P]=94; map 1..63 through the charset;
otherwise (`elif 1 <= charset_size:` is always true) map to printable ASCII
`32 + idx - 1`, dropping codes outside 32..126 and the space. -/
def modelEmit (idx : Nat) : Option Char :=
  if idx = 92 ∨ idx = 93 ∨ idx = 94 then none
  else if 1 ≤ idx ∧ idx ≤ 63 then some (charsetDigitsFirst.getD (idx - 1) ' ')
  else
    if 32 ≤ 32 + idx - 1 ∧ 32 + idx - 1 ≤ 126 then
      (if 32 + idx - 1 ≠ 32 then some (Char.ofNat (32 + idx - 1)) else none)
    else none

/-- Tokenizer decode loop (lines 340-370): scan the per-position argmax
indices left to right, break at the first [E] token (index 0, line 343), and
emit per-index symbols. -/
def tokenizerScan (emit : Nat → Option Char) : List Nat → List Char
  | [] => []
  | idx :: rest =>
    if idx = 0 then []
    else
      match emit idx with
      | some c => c :: tokenizerScan emit rest
      | none => tokenizerScan emit rest

/-- Decode of a captcha.onnx index sequence (lines 311-321 and 340-357). -/
def captchaDecode (idxs : List Nat) : List Char := tokenizerScan captchaEmit idxs

/-- Decode of a model.onnx index sequence (lines 323-336 and 340-345,358-370). -/
def modelDecode (idxs : List Nat) : List Char := tokenizerScan modelEmit idxs

/-! ## Flat-Segmented decoding (v1-v8 models, lines 570-609) -/

/-- Flat-Segmented decode of a v1-v8 flat row (lines 579-598): slice the row
into `seqLen` segments of `cs.length` scores, take each segment's argmax (the
per-segment softmax applied to logits at lines 589-592 does not change it),
and emit the charset symbol whenever the argmax is below the charset size
(line 597).  The `getD` default is unreachable under that guard. -/
def flatSegDecode (seqLen : Nat) (cs : List Char) (flat : List ℚ) : List Char :=
  (reshapeRows seqLen cs.length flat).flatMap fun seg =>
    if argmaxIdx seg < cs.length then [cs.getD (argmaxIdx seg) ' '] else []

/-! ## Time-Major-Collapsing decoding (crnn branch, lines 382-546) -/

/-- One candidate symbol-table layout of `mappings_config` (lines 444-455): a
blank index, a digit index range mapped from a base digit character, a letter
range mapped from a base letter character, and an optional second letter
range (the 11-tuple rows). -/
structure Mapping where
  blankId : Nat
  digitStart : Nat
  digitEnd : Nat
  letterStart : Nat
  letterEnd : Nat
  digitChar : Char
  letterChar : Char
  letter2 : Option (Nat × Nat × Char)
deriving DecidableEq

/-- Layout "blank(0), 0-9(1-10), A-Z(11-33)" (line 446). -/
def mapping1 : Mapping := ⟨0, 1, 10, 11, 33, '0', 'A', none⟩

/-- Layout "blank(0), A-Z(1-26), 0-9(27-33)" (line 447). -/
def mapping2 : Mapping := ⟨0, 27, 33, 1, 26, '0', 'A', none⟩

/-- Layout "blank(33), 0-9(0-9), A-Z(10-32)" (line 448): digits low, blank last. -/
def mapping3 : Mapping := ⟨33, 0, 9, 10, 32, '0', 'A', none⟩

/-- Layout "blank(33), A-Z(0-25), 0-9(26-32)" (line 449). -/
def mapping4 : Mapping := ⟨33, 26, 32, 0, 25, '0', 'A', none⟩

/-- Layout "blank(0), 0-9(1-10), a-z(11-33)" (line 451). -/
def mapping5 : Mapping := ⟨0, 1, 10, 11, 33, '0', 'a', none⟩

/-- Layout "blank(0), a-z(1-26), 0-9(27-33)" (line 452). -/
def mapping6 : Mapping := ⟨0, 27, 33, 1, 26, '0', 'a', none⟩

/-- Layout "blank(0), 0-9(1-10), A-Z(11-26), a-z(27-33)" (line 454). -/
def mapping7 : Mapping := ⟨0, 1, 10, 11, 26, '0', 'A', some (27, 33, 'a')⟩

/-- The enumerated candidate layouts, in source order (lines 444-455); the two
tuple arities are normalized by `letter2 = none` for the 8-tuples. -/
def mappingsConfig : List Mapping :=
  [mapping1, mapping2, mapping3, mapping4, mapping5, mapping6, mapping7]

/-- Python truthiness-guarded second letter range test
(`letter2_start and letter2_start <= idx <= letter2_end`, lines 480/494/508);
every configured `letter2_start` is 27, hence truthy. -/
def letter2Holds (m : Mapping) (i : Nat) : Bool :=
  match m.letter2 with
  | some (s2, e2, _) => decide (s2 ≤ i) && decide (i ≤ e2)
  | none => false

/-- Symbol emitted for one collapsed index (lines 476-481, identically
503-509): the digit range, then the letter range, then the optional second
letter range; an index in no range emits nothing. -/
def emitSym (m : Mapping) (idx : Nat) : List Char :=
  if m.digitStart ≤ idx ∧ idx ≤ m.digitEnd then
    [Char.ofNat (m.digitChar.toNat + idx - m.digitStart)]
  else if m.letterStart ≤ idx ∧ idx ≤ m.letterEnd then
    [Char.ofNat (m.letterChar.toNat + idx - m.letterStart)]
  else
    match m.letter2 with
    | some (s2, e2, c2) =>
      if s2 ≤ idx ∧ idx ≤ e2 then [Char.ofNat (c2.toNat + idx - s2)] else []
    | none => []

/-- CTC-style greedy collapse loop (lines 467-483): the blank emits nothing
and resets the repeat tracker (`prev_idx = -1`, embedded as `none`); a repeat
of the previous index is skipped; otherwise the index's symbol (if any) is
emitted and the tracker set to the index. -/
def collapseAux (m : Mapping) : List Nat → Option Nat → List Char
  | [], _ => []
  | idx :: rest, prev =>
    if idx = m.blankId then collapseAux m rest none
    else if prev = some idx then collapseAux m rest prev
    else emitSym m idx ++ collapseAux m rest (some idx)

/-- Greedy (top-1) hypothesis of a layout (lines 466-483), on the per-row
argmax index sequence. -/
def ctcGreedy (m : Mapping) (idxs : List Nat) : List Char := collapseAux m idxs none

/-- Top-2 preference rule (lines 490-497): use the top-2 index exactly when it
lies in the digit range while the top-1 index is in a letter range (either
one) or is the blank; otherwise use the top-1 index. -/
def top2Pick (m : Mapping) (idx1 idx2 : Nat) : Nat :=
  if (m.digitStart ≤ idx2 ∧ idx2 ≤ m.digitEnd) ∧
      ((m.letterStart ≤ idx1 ∧ idx1 ≤ m.letterEnd) ∨ letter2Holds m idx1 = true ∨
        idx1 = m.blankId) then
    idx2
  else idx1

/-- Top-2-biased hypothesis of a layout (lines 486-511): per row pick via
`top2Pick` on the two largest entries, then the same collapse loop (the source
inlines the collapse in the same pass; the per-row picks are independent of
the collapse state, so picking first is equivalent). -/
def ctcTop2 (m : Mapping) (rows : List (List ℚ)) : List Char :=
  collapseAux m (rows.map fun r => top2Pick m (argmaxIdx r) (argmaxExcept r (argmaxIdx r))) none

/-- All (layout × variant) hypothesis texts in enumeration order
(lines 457-511): for each mapping, the greedy text then the top-2 text. -/
def crnnResults (rows : List (List ℚ)) : List (List Char) :=
  mappingsConfig.flatMap fun m => [ctcGreedy m (rows.map argmaxIdx), ctcTop2 m rows]

/-- Python `str.isdigit` on the ASCII strings produced here: nonempty and all
characters in '0'..'9'. -/
def pyIsDigit (s : List Char) : Bool := !s.isEmpty && s.all Char.isDigit

/-- Qualification test of the digit-preference loop (line 528):
`text and text.isdigit() and len(text) >= 4`. -/
def isCandidate (t : List Char) : Bool := pyIsDigit t && decide (4 ≤ t.length)

/-- Digit-preference selection loop (lines 526-531): scan all hypothesis
texts; a qualifying all-digit text replaces the current best when there is no
best yet or it is strictly longer (`not best_text or (not best_text.isdigit()
or len(text) > len(best_text))`). -/
def digitPrefAux : List (List Char) → List Char → List Char
  | [], best => best
  | t :: rest, best =>
    if isCandidate t &&
        (best.isEmpty || (!pyIsDigit best || decide (best.length < t.length))) then
      digitPrefAux rest t
    else digitPrefAux rest best

/-- Hypothesis selection of the crnn branch (lines 513-536): with a truthy
expected text the first exact match wins (lines 518-523); if there is no best
yet the digit-preference loop runs (lines 526-531); if there is still no best
the first result is returned (lines 534-536). -/
def crnnSelect (expected : Option (List Char)) (results : List (List Char)) : List Char :=
  let bestExact : List Char :=
    match expected with
    | some e => if e.isEmpty then [] else (results.find? fun t => t == e).getD []
    | none => []
  let bestDigit := if bestExact.isEmpty then digitPrefAux results bestExact else bestExact
  if bestDigit.isEmpty then results.headD [] else bestDigit

/-- Decode of the crnn branch (lines 382-546) on the `(time_steps, vocab)`
rows obtained after the transpose-and-squeeze of the unit batch axis
(lines 385-390); the row softmax for logits (lines 393-395) changes no
per-row argmax or top-2 index and is omitted. -/
def crnnDecode (rows : List (List ℚ)) (expected : Option (List Char)) : List Char :=
  crnnSelect expected (crnnResults rows)

/-! ## Hypothesis scorer (charset-variant block, lines 783-843) -/

/-- Positional match count (lines 823-827): positions over the shorter of the
two lengths where the strings agree. -/
def matchCount (h ref : List Char) : Nat := (h.zip ref).countP fun p => p.1 == p.2

/-- Hypothesis score (lines 818-829): 1000 for an exact match, otherwise 10
per positional match plus 5 for equal lengths. -/
def matchScore (h ref : List Char) : Nat :=
  if h = ref then 1000
  else 10 * matchCount h ref + (if h.length = ref.length then 5 else 0)

/-- Best-so-far selection loop (lines 804-838): `best_match_score` starts at
-1 and only a strictly greater score replaces, so the first hypothesis
attaining the maximum score is kept. -/
def selectBestAux (ref : List Char) : List (List Char) → Int → List Char → List Char
  | [], _, best => best
  | h :: rest, bestScore, best =>
    if bestScore < (matchScore h ref : Int) then selectBestAux ref rest (matchScore h ref) h
    else selectBestAux ref rest bestScore best

/-- The scorer: pick among hypothesis texts against a reference
(lines 804-843; the same fold as the loop interleaving decode and score). -/
def selectBest (hyps : List (List Char)) (ref : List Char) : List Char :=
  selectBestAux ref hyps (-1) []

/-! ## Generic-Reshape path (unknown model hint, lines 549-686 and 719-857) -/

/-- Inference loop lines 659-668 (and identically 626-633): in this code path
the local `seq_len` is still unassigned when `if seq_len:` at line 667 runs,
so the first pass (`test_seq = 4`) either finds a match in CHAR_SETS order or
raises UnboundLocalError — `test_seq = 5..8` are never tried.  `none` models
the raised exception; the loop can never be exhausted normally. -/
def inferSeqLenAux (total : Nat) : List Nat → Option Nat → Option (Nat × String × List Char)
  | [], _ => none
  | testSeq :: rest, seqVar =>
    match CHAR_SETS.find? fun p => total == testSeq * p.2.length with
    | some p => some (testSeq, p.1, p.2)
    | none =>
      match seqVar with
      | none => none
      | some _ => inferSeqLenAux total rest seqVar

/-- The crashing bounded factorization search of the rank-2 path. -/
def inferSeqLen (total : Nat) : Option (Nat × String × List Char) :=
  inferSeqLenAux total [4, 5, 6, 7, 8] none

/-- Inference loop lines 759-771: the same search, but here `seq_len` was set
to None at line 742, so `if seq_len:` at line 770 is false until a match is
found and all of `test_seq_len = 4..8` are tried; the first match in search
order wins. -/
def inferTailAux (total : Nat) : List Nat → Option (Nat × String × List Char)
  | [] => none
  | s :: rest =>
    match CHAR_SETS.find? fun p => total == s * p.2.length with
    | some p => some (s, p.1, p.2)
    | none => inferTailAux total rest

/-- The working bounded factorization search of the shared tail. -/
def inferTail (total : Nat) : Option (Nat × String × List Char) :=
  inferTailAux total [4, 5, 6, 7, 8]

/-- Charset variants tried against an expected text for 63-symbol sets
(lines 786-791): the key "63_digits_first" is absent from CHAR_SETS, so its
`get` default string is used, and "digits_last" spells out the same string as
the current 63 set. -/
def charsetVariants63 : List (List Char) :=
  [charSetOf "63",
   "0123456789abcdefghijklmnopqrstuvwxyzABCDEFGHIJKLMNOPQRSTUVWXYZ$".toList,
   "ABCDEFGHIJKLMNOPQRSTUVWXYZabcdefghijklmnopqrstuvwxyz0123456789$".toList,
   "abcdefghijklmnopqrstuvwxyzABCDEFGHIJKLMNOPQRSTUVWXYZ0123456789$".toList]

/-- Charset variants for 37-symbol sets (lines 793-800): the two
"digits_first" keys are absent from CHAR_SETS and fall back to their `get`
default strings, the last two keys are present. -/
def charsetVariants37 (current : List Char) : List (List Char) :=
  [current,
   "0123456789abcdefghijklmnopqrstuvwxyz$".toList,
   "0123456789ABCDEFGHIJKLMNOPQRSTUVWXYZ$".toList,
   "ABCDEFGHIJKLMNOPQRSTUVWXYZ0123456789$".toList,
   "abcdefghijklmnopqrstuvwxyz0123456789$".toList]

/-- Decode an index sequence through a charset, skipping out-of-range indices
(`if idx < len(...): text += ...`): lines 812-816 per variant and the
standard decoding at lines 846-852 are this same loop. -/
def standardDecode (cs : List Char) (idxs : List Nat) : List Char :=
  idxs.filterMap fun i => cs.get? i

/-- Shared tail of postprocess_output for an unrecognized model hint
(lines 719-857): `get_model_config` yields (None, None) at line 734, line 742
sets `seq_len` to None, the charset is inferred from the element count
(lines 759-771) with the 63-set default as fallback (lines 773-777); with a
truthy expected text and a 63- or 37-symbol charset the variant-scoring block
(lines 783-843, whose `best_match_score >= 0` exit test always holds) runs,
otherwise the standard decoding (lines 846-857).  An empty index list makes
`np.max(char_indices)` at line 727 raise (`none`). -/
def tailDecode (charIndices : List Nat) (totalSize : Nat) (expected : Option (List Char)) :
    Option (List Char) :=
  if charIndices.isEmpty then none
  else
    let cs : List Char :=
      match inferTail totalSize with
      | some (_, _, cs) => cs
      | none => charSetOf "63"
    match expected with
    | some e =>
      if e ≠ [] ∧ (cs.length = 63 ∨ cs.length = 37) then
        some (selectBest
          (((if cs.length = 63 then charsetVariants63 else charsetVariants37 cs).map
            fun v => standardDecode v charIndices)) e)
      else some (standardDecode cs charIndices)
    | none => some (standardDecode cs charIndices)

/-- postprocess_output on a rank-2 single-row output `(1, N)` with an
unrecognized model hint (lines 561-686, then 719-857).  Both the logits and
the probabilities sub-branch run the crashing inference loop (lines 626-633
resp. 659-668); in the only surviving case (a `test_seq = 4` match) the row
is reshaped and per-row argmaxes taken (the softmax for logits changing
none of them).  An empty output makes `np.min` at line 258 raise. -/
def postprocessFlatRow (flat : List ℚ) (expected : Option (List Char)) : Option (List Char) :=
  if flat.isEmpty then none
  else
    match inferSeqLen flat.length with
    | none => none
    | some (seqLen, _, cs) =>
      tailDecode ((reshapeRows seqLen cs.length flat).map argmaxIdx) flat.length expected

/-- Divisor-based reshape of a rank-1 output (lines 693-698): the first
`seq_len` in 4..10 for which `num_classes = total_size // seq_len` is positive
and exact, reshaped and argmaxed per row. -/
def divisorReshape (output : List ℚ) : Option (List Nat) :=
  (([4, 5, 6, 7, 8, 9, 10].find? fun s =>
      decide (0 < output.length / s) && (output.length == s * (output.length / s))).map
    fun s => (reshapeRows s (output.length / s) output).map argmaxIdx)

/-- postprocess_output on a rank-1 output with an unrecognized model hint
(lines 690-701, then 719-857): reshape by the first exact divisor in 4..10
and take per-row argmaxes, else fall back to the single overall argmax
(line 701); then the shared tail.  An empty output makes `np.min` raise. -/
def postprocessRank1 (output : List ℚ) (expected : Option (List Char)) : Option (List Char) :=
  if output.isEmpty then none
  else tailDecode ((divisorReshape output).getD [argmaxIdx output]) output.length expected

/-! ## Claim-side definitions and proof devices

The remaining definitions are not embeddings of the source: the spec-form
definitions state what the claims say (to be compared with the embedded
code), and `firstMaxFold` is the common shape of the two best-so-far loops,
used to characterize them. -/

/-- Modelled from the spec (§4.6, §4.2 rule 4, §8): the intended bounded
factorization search — candidate sequence lengths 4..8 against the CHAR_SETS
table, first exact match in search order — i.e. the loop of lines 659-668
without the uninitialized `seq_len` read. -/
def specFactorSearch (total : Nat) : List Nat → Option (Nat × String)
  | [] => none
  | s :: rest =>
    match CHAR_SETS.find? fun p => total == s * p.2.length with
    | some p => some (s, p.1)
    | none => specFactorSearch total rest

/-- The spec's factorization search over the full candidate range. -/
def specFactorConfig (total : Nat) : Option (Nat × String) :=
  specFactorSearch total [4, 5, 6, 7, 8]

/-- Non-exact score as the claim states it: 10 per positional match over the
shorter of the two lengths, plus 5 for equal lengths. -/
def claimScore (h ref : List Char) : Nat :=
  10 * matchCount h ref + (if h.length = ref.length then 5 else 0)

/-- Hypothesis Scorer as the claim states it: an exact match dominates
(short-circuits), otherwise the maximum `claimScore` wins and the first-seen
hypothesis wins ties. -/
def claimSelect (hyps : List (List Char)) (ref : List Char) : List Char :=
  match hyps.find? fun h => h == ref with
  | some h => h
  | none =>
    (hyps.find? fun h => decide (∀ u ∈ hyps, claimScore u ref ≤ claimScore h ref)).getD []

/-- Digit preference in spec form: among the hypothesis texts that are
nonempty all-digit strings of length at least 4, the first one of maximal
length, if any. -/
def specDigitPref (results : List (List Char)) : Option (List Char) :=
  (results.filter isCandidate).find? fun h =>
    decide (∀ u ∈ results.filter isCandidate, u.length ≤ h.length)

/-- Digit index range of a layout. -/
abbrev inDigitRange (m : Mapping) (i : Nat) : Prop := m.digitStart ≤ i ∧ i ≤ m.digitEnd

/-- First letter index range of a layout. -/
abbrev inLetterRange (m : Mapping) (i : Nat) : Prop := m.letterStart ≤ i ∧ i ≤ m.letterEnd

/-- Second (optional) letter index range of a layout. -/
abbrev inLetter2Range (m : Mapping) (i : Nat) : Prop := letter2Holds m i = true

/-- Concrete 34-class score row: index `t` holds the top value 100, every
other index `k` holds the value `k`; all values are distinct and nonnegative
(no softmax, unambiguous argsort). -/
def exRow (t : Nat) : List ℚ := (List.range 34).map fun k => if k = t then 100 else (k : ℚ)

/-- Four time steps whose per-row argmaxes are 27, 28, 29, 30. -/
def exRows : List (List ℚ) := [exRow 27, exRow 28, exRow 29, exRow 30]

/-! ## First-maximum folds

Both best-so-far loops of the source (the scorer at lines 804-838 and the
digit preference at lines 526-531) replace the running best only on a strict
improvement; each therefore returns the first element attaining the maximum.
`firstMaxFold` is the common shape and is characterized through `find?`. -/

/-- Strict-improvement fold: starting from no best (or a current best `b`),
replace the accumulator whenever the measure strictly increases. -/
def firstMaxFold {α : Type} (f : α → Nat) : List α → Option α → Option α
  | [], acc => acc
  | x :: t, acc =>
    match acc with
    | none => firstMaxFold f t (some x)
    | some b => if f b < f x then firstMaxFold f t (some x) else firstMaxFold f t (some b)

/-! ## Basic facts about the numpy primitives -/

theorem argmaxAux_lt (t : List ℚ) : ∀ (i bi : Nat) (bv : ℚ), bi < i →
    argmaxAux t i bi bv < i + t.length := by
  induction t with
  | nil => intro i bi bv h; simpa [argmaxAux] using h
  | cons x t ih =>
    intro i bi bv h
    simp only [argmaxAux, List.length_cons]
    by_cases hlt : bv < x
    · simp only [if_pos hlt]
      have := ih (i + 1) i x (Nat.lt_succ_self i)
      omega
    · simp only [if_neg hlt]
      have := ih (i + 1) bi bv (by omega)
      omega

theorem argmaxIdx_lt (l : List ℚ) (h : l ≠ []) : argmaxIdx l < l.length := by
  match l with
  | x :: t =>
    simp only [argmaxIdx, List.length_cons]
    have := argmaxAux_lt t 1 0 x (by omega)
    omega

theorem reshapeRows_length (s width : Nat) (l : List ℚ) :
    (reshapeRows s width l).length = s := by
  induction s generalizing l with
  | zero => rfl
  | succ s ih => simp [reshapeRows, ih]

theorem reshapeRows_row_length (s width : Nat) (l : List ℚ)
    (h : l.length = s * width) : ∀ r ∈ reshapeRows s width l, r.length = width := by
  induction s generalizing l with
  | zero => simp [reshapeRows]
  | succ s ih =>
    intro r hr
    simp only [reshapeRows, List.mem_cons] at hr
    rcases hr with rfl | hr
    · have : width ≤ l.length := by rw [h]; calc
        width ≤ s * width + width := Nat.le_add_left _ _
        _ = (s + 1) * width := by ring
      simpa using this
    · exact ih (l.drop width) (by simp [h]; ring_nf; omega) r hr

/-! ## Tokenizer-Sequence properties (claims C2, C8) -/

theorem tokenizerScan_eq (emit : Nat → Option Char) (xs : List Nat) :
    tokenizerScan emit xs = (xs.takeWhile fun i => i != 0).filterMap emit := by
  induction xs with
  | nil => rfl
  | cons idx rest ih =>
    by_cases h : idx = 0
    · subst h; simp [tokenizerScan]
    · rw [List.takeWhile_cons_of_pos (by simpa using h)]
      simp only [tokenizerScan, if_neg h, List.filterMap_cons]
      cases hemit : emit idx <;> simp [hemit, ih]

theorem captchaEmit_mem {idx : Nat} {c : Char} (h : captchaEmit idx = some c) :
    c ∈ charsetCaptchaOnnx := by
  unfold captchaEmit at h
  split at h
  · exact absurd h (by simp)
  · split at h
    · rename_i hr
      have hlt : idx - 1 < charsetCaptchaOnnx.length := by
        have : charsetCaptchaOnnx.length = 62 := by decide
        omega
      rw [List.getD_eq_getElem?_getD, List.getElem?_eq_getElem hlt] at h
      simp only [Option.getD_some, Option.some.injEq] at h
      exact h ▸ List.getElem_mem hlt
    · exact absurd h (by simp)

/-- Claim C2: Tokenizer-Sequence decoding scans the per-position argmax
indices left to right, stops before (excluding) the first end-of-sequence
index 0 (the `takeWhile` characterizations, for both the captcha.onnx and the
model.onnx sub-branch), and the unknown/begin/pad indices (63/64/65
resp. 92/93/94) emit nothing; every character of a decoded captcha.onnx
string comes from the charset, so the decoded string never contains the
end-of-sequence, unknown, begin or pad symbol. -/
theorem c2_tokenizer_stop_and_skip (xs : List Nat) :
    captchaDecode xs = (xs.takeWhile fun i => i != 0).filterMap captchaEmit ∧
    modelDecode xs = (xs.takeWhile fun i => i != 0).filterMap modelEmit ∧
    captchaEmit 63 = none ∧ captchaEmit 64 = none ∧ captchaEmit 65 = none ∧
    modelEmit 92 = none ∧ modelEmit 93 = none ∧ modelEmit 94 = none ∧
    ∀ c ∈ captchaDecode xs, c ∈ charsetCaptchaOnnx := by
  refine ⟨tokenizerScan_eq _ xs, tokenizerScan_eq _ xs, by decide, by decide, by decide,
    by decide, by decide, by decide, ?_⟩
  intro c hc
  rw [captchaDecode, tokenizerScan_eq, List.mem_filterMap] at hc
  obtain ⟨idx, -, hemit⟩ := hc
  exact captchaEmit_mem hemit

/-- Witness for C2 at a concrete index sequence: index 63 ([UNK]) is skipped,
decoding stops before the 0 ([E]), and the produced characters are charset
members. -/
theorem c2_witness :
    captchaDecode [5, 63, 12, 0, 9] =
      (([5, 63, 12, 0, 9].takeWhile fun i => i != 0).filterMap captchaEmit) ∧
    '4' ∈ charsetCaptchaOnnx := by
  refine ⟨(c2_tokenizer_stop_and_skip [5, 63, 12, 0, 9]).1, ?_⟩
  exact (c2_tokenizer_stop_and_skip [5, 63, 12, 0, 9]).2.2.2.2.2.2.2.2 '4' (by decide)

/-- Claim C8: in the captcha.onnx tokenizer branch every argmax index beyond
the special-token block (greater than the pad index 65) is silently dropped —
deleting such an index from the sequence does not change the decoded
string. -/
theorem c8_beyond_pad_dropped (l1 l2 : List Nat) (idx : Nat) (h : 65 < idx) :
    captchaDecode (l1 ++ idx :: l2) = captchaDecode (l1 ++ l2) := by
  have hemit : captchaEmit idx = none := by
    unfold captchaEmit
    rw [if_neg (by omega), if_neg (by omega)]
  induction l1 with
  | nil =>
    simp only [List.nil_append, captchaDecode, tokenizerScan, if_neg (by omega : ¬idx = 0), hemit]
  | cons a l1 ih =>
    simp only [List.cons_append, captchaDecode, tokenizerScan]
    by_cases ha : a = 0
    · simp [ha]
    · simp only [if_neg ha]
      cases captchaEmit a with
      | none => exact ih
      | some c => exact congrArg (c :: ·) ih

/-- Witness for C8: dropping the beyond-pad index 70 leaves the decode of
`[5, 70, 12]` equal to that of `[5, 12]`, namely "4b". -/
theorem c8_witness : captchaDecode [5, 70, 12] = ['4', 'b'] :=
  (c8_beyond_pad_dropped [5] [12] 70 (by decide)).trans (by decide)

/-! ## Flat-Segmented properties (claims C9, C10) -/

theorem flatMap_guard_eq_map (cs : List Char) :
    ∀ rows : List (List ℚ), (∀ r ∈ rows, argmaxIdx r < cs.length) →
      (rows.flatMap fun seg =>
          if argmaxIdx seg < cs.length then [cs.getD (argmaxIdx seg) ' '] else []) =
        rows.map fun seg => cs.getD (argmaxIdx seg) ' ' := by
  intro rows
  induction rows with
  | nil => intro _; rfl
  | cons seg rest ih =>
    intro hrows
    rw [List.flatMap_cons, List.map_cons, if_pos (hrows seg (List.mem_cons_self _ _)),
      ih fun r hr => hrows r (List.mem_cons_of_mem _ hr)]
    rfl

theorem flatSegDecode_eq_map (cs : List Char) (hpos : 0 < cs.length)
    (s : Nat) (flat : List ℚ) (hlen : flat.length = s * cs.length) :
    flatSegDecode s cs flat =
      (reshapeRows s cs.length flat).map fun seg => cs.getD (argmaxIdx seg) ' ' := by
  unfold flatSegDecode
  refine flatMap_guard_eq_map cs _ fun r hr => ?_
  have hseg : r.length = cs.length := reshapeRows_row_length s cs.length flat hlen r hr
  have hne : r ≠ [] := by
    intro hcon; rw [hcon] at hseg; simp at hseg; omega
  exact hseg ▸ argmaxIdx_lt r hne

theorem indexOf_getD (cs : List Char) (hnd : cs.Nodup) (n : Nat) (hn : n < cs.length) :
    cs.indexOf (cs.getD n ' ') = n := by
  rw [List.getD_eq_getElem?_getD, List.getElem?_eq_getElem hn, Option.getD_some]
  have := List.get_indexOf hnd ⟨n, hn⟩
  simpa using this

theorem flatSeg_roundtrip (cs : List Char) (hnd : cs.Nodup) (hpos : 0 < cs.length)
    (s : Nat) (flat : List ℚ) (hlen : flat.length = s * cs.length) :
    (flatSegDecode s cs flat).map (fun c => cs.indexOf c) =
      (reshapeRows s cs.length flat).map argmaxIdx := by
  rw [flatSegDecode_eq_map cs hpos s flat hlen, List.map_map]
  refine List.map_congr_left fun seg hseg => ?_
  have hsegl : seg.length = cs.length := reshapeRows_row_length s cs.length flat hlen seg hseg
  have hne : seg ≠ [] := by
    intro hcon; rw [hcon] at hsegl; simp at hsegl; omega
  have hlt : argmaxIdx seg < cs.length := hsegl ▸ argmaxIdx_lt seg hne
  exact indexOf_getD cs hnd (argmaxIdx seg) hlt

set_option maxRecDepth 8192 in
theorem configCharSet_facts : ∀ p ∈ MODEL_CONFIGS,
    (charSetOf p.2.2).Nodup ∧ 0 < (charSetOf p.2.2).length := by decide

/-- Claim C9: for every configured (sequence_length, charset) pair and a flat
row of exactly `sequence_length * |charset|` scores, mapping each character of
the Flat-Segmented decode back to its index in the charset reproduces exactly
the per-segment argmax indices (round trip over indices). -/
theorem c9_flat_roundtrip (v : String) (s : Nat) (k : String)
    (hcfg : (v, s, k) ∈ MODEL_CONFIGS) (flat : List ℚ)
    (hlen : flat.length = s * (charSetOf k).length) :
    (flatSegDecode s (charSetOf k) flat).map (fun c => (charSetOf k).indexOf c) =
      (reshapeRows s (charSetOf k).length flat).map argmaxIdx := by
  obtain ⟨hnd, hpos⟩ := configCharSet_facts (v, s, k) hcfg
  exact flatSeg_roundtrip (charSetOf k) hnd hpos s flat hlen

set_option maxRecDepth 8192 in
/-- Witness for C9: the v2 configuration (6, "11") on a concrete 66-score row. -/
theorem c9_witness :
    (flatSegDecode 6 (charSetOf "11") (List.replicate 66 (1 : ℚ))).map
        (fun c => (charSetOf "11").indexOf c) =
      (reshapeRows 6 (charSetOf "11").length (List.replicate 66 (1 : ℚ))).map argmaxIdx :=
  c9_flat_roundtrip "v2" 6 "11" (by simp [Captcha.MODEL_CONFIGS]) _ (by decide)

/-- Claim C10: for every configured (sequence_length, charset) pair and a flat
row of exactly `sequence_length * |charset|` scores, the Flat-Segmented decode
emits exactly one character per segment — the decoded length equals the
configured sequence length (the out-of-range guard never fires, a segment's
argmax being below the charset size). -/
theorem c10_flat_length (v : String) (s : Nat) (k : String)
    (hcfg : (v, s, k) ∈ MODEL_CONFIGS) (flat : List ℚ)
    (hlen : flat.length = s * (charSetOf k).length) :
    (flatSegDecode s (charSetOf k) flat).length = s := by
  obtain ⟨-, hpos⟩ := configCharSet_facts (v, s, k) hcfg
  rw [flatSegDecode_eq_map (charSetOf k) hpos s flat hlen, List.length_map,
    reshapeRows_length]

set_option maxRecDepth 8192 in
/-- Witness for C10: the v5 configuration (5, "37_uppercase") on a concrete
185-score row decodes to exactly 5 characters. -/
theorem c10_witness :
    (flatSegDecode 5 (charSetOf "37_uppercase") (List.replicate 185 (1 : ℚ))).length = 5 :=
  c10_flat_length "v5" 5 "37_uppercase" (by simp [Captcha.MODEL_CONFIGS]) _ (by decide)

/-! ## Time-Major-Collapsing properties (claims C3, C5) -/

theorem collapse_merge (m : Mapping) (x : Nat) (l : List Nat) (p : Option Nat)
    (hx : x ≠ m.blankId) : collapseAux m (x :: x :: l) p = collapseAux m (x :: l) p := by
  by_cases hp : p = some x
  · conv_lhs => rw [collapseAux]
    rw [if_neg hx, if_pos hp]
  · conv_lhs => rw [collapseAux]
    rw [if_neg hx, if_neg hp]
    conv_lhs => rw [collapseAux]
    rw [if_neg hx, if_pos rfl]
    conv_rhs => rw [collapseAux]
    rw [if_neg hx, if_neg hp]

theorem collapse_blank_x_x_blank_x_y (m : Mapping) (x y : Nat) (hxb : x ≠ m.blankId)
    (hyb : y ≠ m.blankId) (hxy : x ≠ y) :
    ctcGreedy m [m.blankId, x, x, m.blankId, x, y] = emitSym m x ++ emitSym m x ++ emitSym m y := by
  simp [ctcGreedy, collapseAux, hxb, hyb, hxy]

theorem blank_outside_digit_range :
    ∀ m ∈ mappingsConfig, ¬(m.digitStart ≤ m.blankId ∧ m.blankId ≤ m.digitEnd) := by
  decide

/-- Claim C3 (amended): for every candidate layout, the greedy collapse merges
consecutive repeats of the same non-blank index (first conjunct, for any loop
state), and on the path `[blank, x, x, blank, x, y]` with distinct digit-range
indices `x`, `y` the blank emits nothing while resetting repeat-tracking, so
the collapse is the three digit symbols of `x`, `x`, `y` — for the digits-low
layout and the path `[blank, 3, 3, blank, 3, 7]` that is "337", not the "37"
the claim states. -/
theorem c3_collapse_amended : ∀ m ∈ mappingsConfig,
    (∀ (x : Nat) (l : List Nat) (p : Option Nat), x ≠ m.blankId →
        collapseAux m (x :: x :: l) p = collapseAux m (x :: l) p) ∧
    (∀ x y : Nat, m.digitStart ≤ x → x ≤ m.digitEnd → m.digitStart ≤ y → y ≤ m.digitEnd →
        x ≠ y →
        ctcGreedy m [m.blankId, x, x, m.blankId, x, y] =
          [Char.ofNat (m.digitChar.toNat + x - m.digitStart),
           Char.ofNat (m.digitChar.toNat + x - m.digitStart),
           Char.ofNat (m.digitChar.toNat + y - m.digitStart)]) := by
  intro m hm
  refine ⟨fun x l p hx => collapse_merge m x l p hx, ?_⟩
  intro x y hx1 hx2 hy1 hy2 hxy
  have hxb : x ≠ m.blankId := fun he =>
    blank_outside_digit_range m hm ⟨he ▸ hx1, he ▸ hx2⟩
  have hyb : y ≠ m.blankId := fun he =>
    blank_outside_digit_range m hm ⟨he ▸ hy1, he ▸ hy2⟩
  rw [collapse_blank_x_x_blank_x_y m x y hxb hyb hxy]
  have ex : emitSym m x = [Char.ofNat (m.digitChar.toNat + x - m.digitStart)] := by
    unfold emitSym; rw [if_pos ⟨hx1, hx2⟩]
  have ey : emitSym m y = [Char.ofNat (m.digitChar.toNat + y - m.digitStart)] := by
    unfold emitSym; rw [if_pos ⟨hy1, hy2⟩]
  rw [ex, ey]; rfl

/-- Counterexample to C3 as stated: under the digits-low layout
(blank 33, digits at 0-9, so index 3 maps to '3' and 7 to '7') the greedy path
`[blank, 3, 3, blank, 3, 7]` collapses to "337" — the blank resets
repeat-tracking, so the 3 after the second blank is emitted again — and not to
the "37" the claim asserts. -/
theorem c3_counterexample :
    ctcGreedy mapping3 [33, 3, 3, 33, 3, 7] = ['3', '3', '7'] ∧
    ctcGreedy mapping3 [33, 3, 3, 33, 3, 7] ≠ ['3', '7'] := by decide

/-- Witness for C3 (amended) at the digits-low layout with x = 3, y = 7. -/
theorem c3_witness :
    ctcGreedy mapping3 [mapping3.blankId, 3, 3, mapping3.blankId, 3, 7] = ['3', '3', '7'] := by
  have h := (c3_collapse_amended mapping3 (by decide)).2 3 7 (by decide) (by decide)
    (by decide) (by decide) (by decide)
  exact h.trans (by decide)

/-- Claim C5 (amended): for every layout and distinct top-1/top-2 indices, the
top-2 index is preferred exactly when it lies in the digit range and the top-1
index lies in a letter range or is the blank — the blank case, absent from
the claim, also prefers the digit. -/
theorem c5_top2_amended : ∀ m ∈ mappingsConfig, ∀ i1 i2 : Nat, i1 ≠ i2 →
    (top2Pick m i1 i2 = i2 ↔
      inDigitRange m i2 ∧ (inLetterRange m i1 ∨ inLetter2Range m i1 ∨ i1 = m.blankId)) := by
  intro m _ i1 i2 hne
  unfold top2Pick
  split_ifs with hc
  · exact iff_of_true rfl hc
  · exact iff_of_false (fun he => hne he) hc

/-- Counterexample to C5 as stated: under the first layout the top-1 index 0
is the blank and the top-2 index 5 is a digit; the claim says the top-1 index
is used in every case where top-1 is not a letter, "including when the top-1
index is the blank", but the code picks the digit 5. -/
theorem c5_counterexample :
    top2Pick mapping1 0 5 = 5 ∧ mapping1.blankId = 0 ∧
    mapping1.digitStart ≤ 5 ∧ 5 ≤ mapping1.digitEnd ∧ (5 : Nat) ≠ 0 := by decide

/-- Witness for C5 (amended): letter top-1 index 11, digit top-2 index 5. -/
theorem c5_witness : top2Pick mapping1 11 5 = 5 :=
  (c5_top2_amended mapping1 (by decide) 11 5 (by decide)).mpr (by decide)

theorem findCongruent {α : Type} {p q : α → Bool} :
    ∀ l : List α, (∀ x ∈ l, p x = q x) → l.find? p = l.find? q := by
  intro l h
  induction l with
  | nil => rfl
  | cons x t ih =>
    have hx := h x (List.mem_cons_self _ _)
    by_cases hp : p x = true
    · rw [List.find?_cons_of_pos _ hp, List.find?_cons_of_pos _ (hx ▸ hp)]
    · rw [List.find?_cons_of_neg _ hp, List.find?_cons_of_neg _ (fun hq => hp (hx ▸ hq)),
        ih fun u hu => h u (List.mem_cons_of_mem _ hu)]

theorem exists_max_mem {α : Type} (f : α → Nat) :
    ∀ l : List α, l ≠ [] → ∃ a ∈ l, ∀ u ∈ l, f u ≤ f a := by
  intro l
  induction l with
  | nil => intro h; exact absurd rfl h
  | cons x t ih =>
    intro _
    rcases eq_or_ne t [] with rfl | ht
    · exact ⟨x, List.mem_cons_self _ _, by simp⟩
    · obtain ⟨a, ha, hmax⟩ := ih ht
      by_cases hax : f a ≤ f x
      · refine ⟨x, List.mem_cons_self _ _, fun u hu => ?_⟩
        rcases List.mem_cons.mp hu with rfl | hu
        · exact le_refl _
        · exact (hmax u hu).trans hax
      · refine ⟨a, List.mem_cons_of_mem _ ha, fun u hu => ?_⟩
        rcases List.mem_cons.mp hu with rfl | hu
        · omega
        · exact hmax u hu

theorem firstMaxFold_some {α : Type} (f : α → Nat) : ∀ (l : List α) (b : α),
    firstMaxFold f l (some b) =
      some ((l.find? fun h => decide (f b < f h) &&
        decide (∀ u ∈ l, f u ≤ f h)).getD b) := by
  intro l
  induction l with
  | nil => intro b; rfl
  | cons x t ih =>
    intro b
    by_cases hbx : f b < f x
    · rw [show firstMaxFold f (x :: t) (some b) = firstMaxFold f t (some x) by
        simp [firstMaxFold, hbx], ih x]
      by_cases hmax : ∀ u ∈ t, f u ≤ f x
      · have h1 : t.find? (fun h => decide (f x < f h) && decide (∀ u ∈ t, f u ≤ f h)) =
            none := by
          rw [List.find?_eq_none]
          intro u hu
          simp only [Bool.and_eq_true, decide_eq_true_eq, not_and]
          intro hlt
          exact absurd hlt (by have := hmax u hu; omega)
        have h2 : (x :: t).find? (fun h => decide (f b < f h) &&
            decide (∀ u ∈ x :: t, f u ≤ f h)) = some x := by
          refine List.find?_cons_of_pos _ ?_
          simp only [Bool.and_eq_true, decide_eq_true_eq]
          refine ⟨hbx, fun u hu => ?_⟩
          rcases List.mem_cons.mp hu with rfl | hu
          · exact le_refl _
          · exact hmax u hu
        rw [h1, h2]
        rfl
      · push_neg at hmax
        obtain ⟨w, hw, hwgt⟩ := hmax
        have hx2 : ¬((fun h => decide (f b < f h) &&
            decide (∀ u ∈ x :: t, f u ≤ f h)) x = true) := by
          simp only [Bool.and_eq_true, decide_eq_true_eq, not_and]
          intro _ hall
          exact absurd (hall w (List.mem_cons_of_mem _ hw)) (by omega)
        have h3 : (x :: t).find? (fun h => decide (f b < f h) &&
              decide (∀ u ∈ x :: t, f u ≤ f h)) =
            t.find? (fun h => decide (f b < f h) && decide (∀ u ∈ x :: t, f u ≤ f h)) :=
          List.find?_cons_of_neg t hx2
        have hcongr : t.find? (fun h => decide (f x < f h) && decide (∀ u ∈ t, f u ≤ f h)) =
            t.find? (fun h => decide (f b < f h) && decide (∀ u ∈ x :: t, f u ≤ f h)) := by
          refine findCongruent t fun u hu => ?_
          rw [Bool.eq_iff_iff]
          simp only [Bool.and_eq_true, decide_eq_true_eq, List.mem_cons]
          constructor
          · rintro ⟨hxu, hall⟩
            refine ⟨by omega, fun v hv => ?_⟩
            rcases hv with rfl | hv
            · omega
            · exact hall v hv
          · rintro ⟨hbu, hall⟩
            exact ⟨by have := hall w (Or.inr hw); omega, fun v hv => hall v (Or.inr hv)⟩
        rw [h3, ← hcongr]
        have hsome : ∃ a, t.find? (fun h => decide (f x < f h) &&
            decide (∀ u ∈ t, f u ≤ f h)) = some a := by
          rw [← Option.isSome_iff_exists, List.find?_isSome]
          obtain ⟨a, ha, hamax⟩ := exists_max_mem f t (by rintro rfl; simp at hw)
          refine ⟨a, ha, ?_⟩
          simp only [Bool.and_eq_true, decide_eq_true_eq]
          exact ⟨by have := hamax w hw; omega, hamax⟩
        obtain ⟨a, ha⟩ := hsome
        rw [ha]
        rfl
    · rw [show firstMaxFold f (x :: t) (some b) = firstMaxFold f t (some b) by
        simp [firstMaxFold, hbx], ih b]
      have hx2 : ¬((fun h => decide (f b < f h) &&
          decide (∀ u ∈ x :: t, f u ≤ f h)) x = true) := by
        simp only [Bool.and_eq_true, decide_eq_true_eq, not_and]
        intro hlt
        exact absurd hlt hbx
      have h3 : (x :: t).find? (fun h => decide (f b < f h) &&
            decide (∀ u ∈ x :: t, f u ≤ f h)) =
          t.find? (fun h => decide (f b < f h) && decide (∀ u ∈ x :: t, f u ≤ f h)) :=
        List.find?_cons_of_neg t hx2
      have hcongr : t.find? (fun h => decide (f b < f h) && decide (∀ u ∈ t, f u ≤ f h)) =
          t.find? (fun h => decide (f b < f h) && decide (∀ u ∈ x :: t, f u ≤ f h)) := by
        refine findCongruent t fun u hu => ?_
        rw [Bool.eq_iff_iff]
        simp only [Bool.and_eq_true, decide_eq_true_eq, List.mem_cons]
        constructor
        · rintro ⟨hbu, hall⟩
          refine ⟨hbu, fun v hv => ?_⟩
          rcases hv with rfl | hv
          · omega
          · exact hall v hv
        · rintro ⟨hbu, hall⟩
          exact ⟨hbu, fun v hv => hall v (Or.inr hv)⟩
      rw [h3, hcongr]

theorem firstMaxFold_none {α : Type} (f : α → Nat) (l : List α) :
    firstMaxFold f l none = l.find? fun h => decide (∀ u ∈ l, f u ≤ f h) := by
  cases l with
  | nil => rfl
  | cons x t =>
    rw [show firstMaxFold f (x :: t) none = firstMaxFold f t (some x) from rfl,
      firstMaxFold_some]
    by_cases hmax : ∀ u ∈ t, f u ≤ f x
    · have h1 : t.find? (fun h => decide (f x < f h) && decide (∀ u ∈ t, f u ≤ f h)) =
          none := by
        rw [List.find?_eq_none]
        intro u hu
        simp only [Bool.and_eq_true, decide_eq_true_eq, not_and]
        intro hlt
        exact absurd hlt (by have := hmax u hu; omega)
      have h2 : (x :: t).find? (fun h => decide (∀ u ∈ x :: t, f u ≤ f h)) = some x := by
        refine List.find?_cons_of_pos _ ?_
        simp only [decide_eq_true_eq]
        intro u hu
        rcases List.mem_cons.mp hu with rfl | hu
        · exact le_refl _
        · exact hmax u hu
      rw [h1, h2]
      rfl
    · push_neg at hmax
      obtain ⟨w, hw, hwgt⟩ := hmax
      have hx2 : ¬((fun h => decide (∀ u ∈ x :: t, f u ≤ f h)) x = true) := by
        simp only [decide_eq_true_eq, List.mem_cons]
        intro hall
        exact absurd (hall w (Or.inr hw)) (by omega)
      have h3 : (x :: t).find? (fun h => decide (∀ u ∈ x :: t, f u ≤ f h)) =
          t.find? (fun h => decide (∀ u ∈ x :: t, f u ≤ f h)) :=
        List.find?_cons_of_neg t hx2
      have hcongr : t.find? (fun h => decide (f x < f h) && decide (∀ u ∈ t, f u ≤ f h)) =
          t.find? (fun h => decide (∀ u ∈ x :: t, f u ≤ f h)) := by
        refine findCongruent t fun u hu => ?_
        rw [Bool.eq_iff_iff]
        simp only [Bool.and_eq_true, decide_eq_true_eq, List.mem_cons]
        constructor
        · rintro ⟨hxu, hall⟩
          intro v hv
          rcases hv with rfl | hv
          · omega
          · exact hall v hv
        · intro hall
          exact ⟨by have := hall w (Or.inr hw); omega, fun v hv => hall v (Or.inr hv)⟩
      rw [h3, ← hcongr]
      have hsome : ∃ a, t.find? (fun h => decide (f x < f h) &&
          decide (∀ u ∈ t, f u ≤ f h)) = some a := by
        rw [← Option.isSome_iff_exists, List.find?_isSome]
        obtain ⟨a, ha, hamax⟩ := exists_max_mem f t (by rintro rfl; simp at hw)
        refine ⟨a, ha, ?_⟩
        simp only [Bool.and_eq_true, decide_eq_true_eq]
        exact ⟨by have := hamax w hw; omega, hamax⟩
      obtain ⟨a, ha⟩ := hsome
      rw [ha]
      rfl

/-! ## Hypothesis-scorer properties (claim C4) -/

theorem selectBestAux_eq_fold (ref : List Char) :
    ∀ (l : List (List Char)) (b : List Char),
      selectBestAux ref l (matchScore b ref) b =
        (firstMaxFold (fun z => matchScore z ref) l (some b)).getD b := by
  intro l
  induction l with
  | nil => intro b; rfl
  | cons h t ih =>
    intro b
    by_cases hlt : matchScore b ref < matchScore h ref
    · have hstep : firstMaxFold (fun z => matchScore z ref) (h :: t) (some b) =
          firstMaxFold (fun z => matchScore z ref) t (some h) := by
        simp [firstMaxFold, hlt]
      have hint : ((matchScore b ref : Nat) : Int) < ((matchScore h ref : Nat) : Int) := by
        exact_mod_cast hlt
      rw [show selectBestAux ref (h :: t) (matchScore b ref) b =
          selectBestAux ref t (matchScore h ref) h by
        simp only [selectBestAux, if_pos hint], ih h, hstep, firstMaxFold_some]
      simp only [Option.getD_some]
    · have hstep : firstMaxFold (fun z => matchScore z ref) (h :: t) (some b) =
          firstMaxFold (fun z => matchScore z ref) t (some b) := by
        simp [firstMaxFold, hlt]
      have hint : ¬(((matchScore b ref : Nat) : Int) < ((matchScore h ref : Nat) : Int)) := by
        exact_mod_cast hlt
      rw [show selectBestAux ref (h :: t) (matchScore b ref) b =
          selectBestAux ref t (matchScore b ref) b by
        simp only [selectBestAux, if_neg hint], ih b, hstep]

theorem selectBest_eq_fold (hyps : List (List Char)) (ref : List Char) :
    selectBest hyps ref = (firstMaxFold (fun z => matchScore z ref) hyps none).getD [] := by
  cases hyps with
  | nil => rfl
  | cons h t =>
    have h0 : ((-1 : Int) < ((matchScore h ref : Nat) : Int)) := by
      have : (0 : Int) ≤ ((matchScore h ref : Nat) : Int) := Int.natCast_nonneg _
      omega
    rw [show selectBest (h :: t) ref = selectBestAux ref t (matchScore h ref) h by
      simp only [selectBest, selectBestAux, if_pos h0], selectBestAux_eq_fold ref t h,
      show firstMaxFold (fun z => matchScore z ref) (h :: t) none =
        firstMaxFold (fun z => matchScore z ref) t (some h) from rfl,
      firstMaxFold_some]
    simp only [Option.getD_some]

theorem matchCount_le (h ref : List Char) : matchCount h ref ≤ ref.length := by
  unfold matchCount
  calc (h.zip ref).countP (fun p => p.1 == p.2) ≤ (h.zip ref).length :=
        List.countP_le_length _
    _ ≤ ref.length := by rw [List.length_zip]; omega

theorem matchScore_lt_exact (h ref : List Char) (hne : h ≠ ref) (hlen : ref.length ≤ 99) :
    matchScore h ref < 1000 := by
  unfold matchScore
  rw [if_neg hne]
  have := matchCount_le h ref
  split_ifs <;> omega

theorem matchScore_exact (ref : List Char) : matchScore ref ref = 1000 := by
  unfold matchScore
  rw [if_pos rfl]

/-- Claim C4 (amended): for every nonempty hypothesis list and reference of
fewer than 100 characters, the scorer behaves exactly as the claim states —
exact equality dominates, otherwise 10 per positional match plus 5 for equal
lengths, maximum wins, first-seen wins ties.  The length bound is needed: an
exact match scores the fixed 1000, which a non-exact hypothesis with at least
100 positional matches can reach or beat (see the counterexample). -/
theorem c4_scorer_amended (hyps : List (List Char)) (ref : List Char)
    (hne : hyps ≠ []) (hlen : ref.length ≤ 99) :
    selectBest hyps ref = claimSelect hyps ref := by
  rw [selectBest_eq_fold, firstMaxFold_none]
  unfold claimSelect
  rcases hex : hyps.find? (fun h => h == ref) with - | h0
  · have hnone : ∀ h ∈ hyps, h ≠ ref := by
      intro h hh
      have := List.find?_eq_none.mp hex h hh
      simpa using this
    have hsc : ∀ h ∈ hyps, matchScore h ref = claimScore h ref := by
      intro h hh
      unfold matchScore claimScore
      rw [if_neg (hnone h hh)]
    rw [findCongruent hyps fun u hu => ?_]
    rw [Bool.eq_iff_iff]
    simp only [decide_eq_true_eq]
    constructor
    · intro hall v hv
      rw [← hsc v hv, ← hsc u hu]
      exact hall v hv
    · intro hall v hv
      rw [hsc v hv, hsc u hu]
      exact hall v hv
  · have hmem := List.mem_of_find?_eq_some hex
    have hh0 : h0 = ref := by
      have := List.find?_some hex
      simpa using this
    rw [hh0] at hmem ⊢
    obtain ⟨a, hamem, hamax⟩ := exists_max_mem (fun z => matchScore z ref) hyps hne
    have hfind : ∃ c, hyps.find?
        (fun h => decide (∀ u ∈ hyps, matchScore u ref ≤ matchScore h ref)) = some c := by
      rw [← Option.isSome_iff_exists, List.find?_isSome]
      exact ⟨a, hamem, by simpa using hamax⟩
    obtain ⟨c, hc⟩ := hfind
    rw [hc, Option.getD_some]
    have hcp := List.find?_some hc
    simp only [decide_eq_true_eq] at hcp
    have h1000 : 1000 ≤ matchScore c ref := by
      have := hcp ref hmem
      rwa [matchScore_exact] at this
    by_contra hcr
    have := matchScore_lt_exact c ref hcr hlen
    omega

set_option maxRecDepth 16384 in
/-- Counterexample to C4 as stated: with the 101-character reference
"aa…ab" and hypotheses ["aa…ab", "aa…ac"], the first hypothesis is exactly
the reference (score 1000), but the second scores 10·100 + 5 = 1005, so the
scorer returns the non-exact hypothesis — exact string equality does not
score strictly higher than every non-exact score, and the exact match is not
returned. -/
theorem c4_counterexample :
    selectBest [List.replicate 100 'a' ++ ['b'], List.replicate 100 'a' ++ ['c']]
        (List.replicate 100 'a' ++ ['b']) =
      List.replicate 100 'a' ++ ['c'] ∧
    List.replicate 100 'a' ++ ['c'] ≠ List.replicate 100 'a' ++ ['b'] := by
  decide

/-- Witness for C4 (amended), the claim's own example: hypotheses
["AB12", "A B1"], reference "AB13", no exact match, and "AB12" (3 positional
matches) wins. -/
theorem c4_witness :
    selectBest ["AB12".toList, "A B1".toList] "AB13".toList = "AB12".toList := by
  have h := c4_scorer_amended ["AB12".toList, "A B1".toList] "AB13".toList
    (by decide) (by decide)
  rw [h]
  decide

/-! ## CRNN selection properties (claim C6) -/

theorem isCandidate_facts {b : List Char} (hb : isCandidate b = true) :
    pyIsDigit b = true ∧ b.isEmpty = false := by
  simp only [isCandidate, Bool.and_eq_true] at hb
  refine ⟨hb.1, ?_⟩
  have := hb.1
  simp only [pyIsDigit, Bool.and_eq_true, Bool.not_eq_true'] at this
  exact this.1

theorem digitPref_filter : ∀ (l : List (List Char)) (best : List Char),
    digitPrefAux l best = digitPrefAux (l.filter isCandidate) best := by
  intro l
  induction l with
  | nil => intro best; rfl
  | cons t rest ih =>
    intro best
    by_cases hc : isCandidate t = true
    · rw [List.filter_cons_of_pos hc]
      simp only [digitPrefAux, hc, Bool.true_and]
      by_cases h2 : (best.isEmpty || (!pyIsDigit best || decide (best.length < t.length))) = true
      · rw [if_pos h2, if_pos h2, ih t]
      · rw [if_neg h2, if_neg h2, ih best]
    · rw [List.filter_cons_of_neg (by simpa using hc)]
      simp only [digitPrefAux, Bool.and_eq_true]
      rw [if_neg fun hcon => hc hcon.1, ih best]

theorem digitPref_cand_some : ∀ (l : List (List Char)) (b : List Char),
    (∀ t ∈ l, isCandidate t = true) → isCandidate b = true →
    digitPrefAux l b = (firstMaxFold List.length l (some b)).getD b := by
  intro l
  induction l with
  | nil => intro b _ _; rfl
  | cons t rest ih =>
    intro b hall hb
    have hct := hall t (List.mem_cons_self _ _)
    have hrest := fun u hu => hall u (List.mem_cons_of_mem _ hu)
    obtain ⟨hpd, hie⟩ := isCandidate_facts hb
    have hcond : ∀ c : Bool,
        (isCandidate t && (b.isEmpty || (!pyIsDigit b || c))) = c := by
      intro c
      rw [hct, hie, hpd]
      simp
    by_cases hlt : b.length < t.length
    · have hkey : digitPrefAux (t :: rest) b = digitPrefAux rest t := by
        simp [digitPrefAux, hcond, hct, hlt, hie, hpd]
      have hstep : firstMaxFold List.length (t :: rest) (some b) =
          firstMaxFold List.length rest (some t) := by
        simp [firstMaxFold, hlt]
      rw [hkey, ih t hrest hct, hstep, firstMaxFold_some]
      simp only [Option.getD_some]
    · have hkey : digitPrefAux (t :: rest) b = digitPrefAux rest b := by
        simp [digitPrefAux, hcond, hct, hlt, hie, hpd]
      have hstep : firstMaxFold List.length (t :: rest) (some b) =
          firstMaxFold List.length rest (some b) := by
        simp [firstMaxFold, hlt]
      rw [hkey, ih b hrest hb, hstep]

theorem digitPref_cand_start (l : List (List Char))
    (hall : ∀ t ∈ l, isCandidate t = true) :
    digitPrefAux l [] = (firstMaxFold List.length l none).getD [] := by
  cases l with
  | nil => rfl
  | cons t rest =>
    have hct := hall t (List.mem_cons_self _ _)
    have hkey : digitPrefAux (t :: rest) [] = digitPrefAux rest t := by
      simp only [digitPrefAux, hct, List.isEmpty_nil, Bool.true_or, Bool.and_true, if_true]
    rw [hkey, digitPref_cand_some rest t (fun u hu => hall u (List.mem_cons_of_mem _ hu)) hct,
      show firstMaxFold List.length (t :: rest) none =
        firstMaxFold List.length rest (some t) from rfl, firstMaxFold_some]
    simp only [Option.getD_some]

theorem digitPref_eq_spec (results : List (List Char)) :
    digitPrefAux results [] = (specDigitPref results).getD [] := by
  rw [digitPref_filter,
    digitPref_cand_start _ (fun t ht => (List.mem_filter.mp ht).2),
    firstMaxFold_none]
  rfl

theorem specDigitPref_ne_nil {results : List (List Char)} {h : List Char}
    (hs : specDigitPref results = some h) : h.isEmpty = false := by
  have hmem := List.mem_of_find?_eq_some hs
  have hcand := (List.mem_filter.mp hmem).2
  exact (isCandidate_facts hcand).2

theorem crnnResults_headD (rows : List (List ℚ)) :
    (crnnResults rows).headD [] = ctcGreedy mapping1 (rows.map argmaxIdx) := rfl

/-- Claim C6 (amended): decoding a Time-Major-Collapsing tensor with no
reference still applies the digit-preference pass — the returned string is
the earliest longest hypothesis that is a nonempty all-digit string of length
at least 4, over all (layout × variant) hypotheses; only when no such
hypothesis exists is the first-enumerated layout's greedy result returned. -/
theorem c6_no_reference_amended (rows : List (List ℚ)) :
    crnnDecode rows none =
      (specDigitPref (crnnResults rows)).getD (ctcGreedy mapping1 (rows.map argmaxIdx)) := by
  unfold crnnDecode crnnSelect
  simp only [List.isEmpty_nil, if_true, digitPref_eq_spec]
  rcases hs : specDigitPref (crnnResults rows) with - | h
  · simp only [Option.getD_none, List.isEmpty_nil, if_true]
    exact crnnResults_headD rows
  · simp [Option.getD_some, specDigitPref_ne_nil hs]

set_option maxRecDepth 65536 in
/-- Counterexample to C6 as stated: with no reference supplied, the decode of
`exRows` is "0123" — the greedy result of the second layout, promoted by the
digit-preference pass — while the first-enumerated layout's greedy result is
"QRST". -/
theorem c6_counterexample :
    crnnDecode exRows none = ['0', '1', '2', '3'] ∧
    ctcGreedy mapping1 (exRows.map argmaxIdx) = ['Q', 'R', 'S', 'T'] ∧
    (['0', '1', '2', '3'] : List Char) ≠ ['Q', 'R', 'S', 'T'] := by
  decide

/-! ## Generic-Reshape properties (claims C1, C7) -/

/-- Claim C1 (amended): on a rank-2 single-row tensor with an unrecognized
model hint whose element count has no factorization `s * |charset|` over the
bounded candidate lengths 4..10 and the CHAR_SETS sizes, the decode raises
and returns no decoded string.  (The failure is real but accidental: the
inference loop reads the uninitialized `seq_len`; and for rank-1 tensors the
claim fails — see the counterexample — because the divisor fallback and the
63-set default fabricate a decode.) -/
theorem c1_rank2_no_factorization_fails (flat : List ℚ) (expected : Option (List Char))
    (hne : flat ≠ [])
    (hnf : ∀ s ∈ [4, 5, 6, 7, 8, 9, 10], ∀ p ∈ CHAR_SETS, flat.length ≠ s * p.2.length) :
    postprocessFlatRow flat expected = none := by
  have hie : flat.isEmpty = false := by simpa using hne
  have h4 : CHAR_SETS.find? (fun p => flat.length == 4 * p.2.length) = none := by
    rw [List.find?_eq_none]
    intro p hp
    simpa using hnf 4 (by simp) p hp
  have hseq : inferSeqLen flat.length = none := by
    have hstep : inferSeqLen flat.length =
        match CHAR_SETS.find? fun p => flat.length == 4 * p.2.length with
        | some p => some (4, p.1, p.2)
        | none => none := rfl
    rw [hstep, h4]
  unfold postprocessFlatRow
  rw [hie]
  simp only [Bool.false_eq_true, if_false, hseq]

/-- Witness for C1 (amended): a 29-element row (29 has no admissible
factorization) decodes to nothing. -/
theorem c1_witness : postprocessFlatRow (List.replicate 29 (1 : ℚ)) none = none :=
  c1_rank2_no_factorization_fails _ none (by decide) (by decide)

set_option maxRecDepth 16384 in
/-- Counterexample to C1 as stated: a rank-1 tensor of 5 nonnegative scores
has no factorization over the candidate lengths and the known vocabulary
sizes (second conjunct), yet the decode does not fail: the divisor fallback
reshapes it 5×1 and the default 63-symbol charset turns the argmax indices
into the fabricated answer "aaaaa". -/
theorem c1_counterexample :
    postprocessRank1 (List.replicate 5 (1 : ℚ)) none = some ['a', 'a', 'a', 'a', 'a'] ∧
    (∀ s ∈ [4, 5, 6, 7, 8, 9, 10], ∀ p ∈ CHAR_SETS,
      (List.replicate 5 (1 : ℚ)).length ≠ s * p.2.length) := by
  decide

set_option maxRecDepth 16384 in
/-- Claim C7, code bug: a flat (1, 315) tensor has the exact factorization
5 × 63 in the known table (second conjunct: the spec-modelled search finds
it), but the code decodes nothing — the inference loop of lines 659-668 reads
the uninitialized local `seq_len` after the `test_seq = 4` pass fails, so
every configured pair with sequence length above 4 raises UnboundLocalError
instead of being used. -/
theorem c7_factorization_code_bug :
    postprocessFlatRow (List.replicate 315 (1 : ℚ)) none = none ∧
    specFactorConfig 315 = some (5, "63") := by
  decide

end Captcha
